import Mathlib

/-!
# Verification of the Bloom-prefiltered regex search accelerator

A shallow embedding, in Lean 4, of `src/modash/regex-search.ts` from the
`aggo` repository: an enhanced `$regex` operator that narrows a document
collection with a trigram-backed Bloom prefilter before running the exact
pattern match, together with proofs of the specification's claims about it.

JavaScript values are modelled by the inductive `Value`; numbers are
modelled by `Int`/`ℚ` (exact arithmetic), and the ambient JavaScript
runtime facilities that the file calls into — `new RegExp(...)` /
`RegExp.test` and the Bloom filter's hash functions — are parameters of
the embedding (`JsEnv`), since they are external to the translated code.
`performance.now()` readings are supplied by a `Timing` record.

The companion module `bloom-filter.ts` (`RegexSearchBloomFilter`,
`extractLiteralsFromRegex`, `extractTrigrams`) is imported by the source
file but is not part of the repository snapshot; those components are
modelled from the specification's contracts (§4.1–§4.3, §4.5) and are
marked as such in their doc comments.
-/

set_option autoImplicit false

namespace Aggo

/-- A JavaScript/JSON value: the document model of the surrounding engine
(documents are arbitrarily nested key-value structures). -/
inductive Value where
  | vNull : Value
  | vBool (b : Bool) : Value
  | vNum (n : Int) : Value
  | vStr (s : String) : Value
  | vArr (elems : List Value) : Value
  | vObj (fields : List (String × Value)) : Value
  deriving Repr

/-- Property lookup on an object's field list (first binding wins). -/
def objLookup : List (String × Value) → String → Option Value
  | [], _ => none
  | (k, v) :: rest, key => if k = key then some v else objLookup rest key

/-- `typeof current === 'object'` and `current != null`: only objects and
arrays survive the guard at the top of `getNestedFieldValue`'s loop. -/
def jsIsObject : Value → Bool
  | Value.vArr _ => true
  | Value.vObj _ => true
  | _ => false

/-- The canonical decimal form of a natural number key, used to model
JavaScript array index access `arr[key]` (only the canonical numeric
string form of an index reaches an element). -/
def parseCanonicalNat (key : String) : Option Nat :=
  if key.data.all Char.isDigit && !key.data.isEmpty then
    let n := key.data.foldl (fun acc c => acc * 10 + (c.toNat - 48)) 0
    if toString n = key then some n else none
  else none

/-- One step of dotted-path traversal: the body of `getNestedFieldValue`'s
loop (`if (current == null || typeof current !== 'object') return undefined;
current = current[key]`). `none` models `undefined`. Array indexing uses the
canonical numeric form of the key, as JavaScript property access does. -/
def stepField (current : Option Value) (key : String) : Option Value :=
  match current with
  | some (Value.vObj fs) => objLookup fs key
  | some (Value.vArr es) =>
    match parseCanonicalNat key with
    | some i => es.get? i
    | none => none
  | _ => none

/-- `String.prototype.split` with a single-character separator, as used by
`path.split('.')` (so `"".split('.') = [""]` and `".".split('.') = ["", ""]`).
Defined over character lists so that it evaluates by kernel reduction. -/
def jsSplitAux (sep : Char) : List Char → List Char → List String
  | [], acc => [String.mk acc.reverse]
  | c :: rest, acc =>
    if c = sep then String.mk acc.reverse :: jsSplitAux sep rest []
    else jsSplitAux sep rest (c :: acc)

/-- `s.split(sep)` for a one-character separator. -/
def jsSplit (s : String) (sep : Char) : List String := jsSplitAux sep s.data []

/-- `getNestedFieldValue(obj, path)`: dotted-path traversal
(`path.split('.')` folded over the document). -/
def getNestedFieldValue (obj : Value) (path : String) : Option Value :=
  (jsSplit path '.').foldl stepField (some obj)

/-- JavaScript `toString` on a value, used for `_id?.toString()`.
Arrays stringify as their comma-joined elements with `null` rendered
empty; plain objects stringify to the standard object tag. -/
def jsToString : Value → String
  | Value.vNull => "null"
  | Value.vBool b => if b then "true" else "false"
  | Value.vNum n => toString n
  | Value.vStr s => s
  | Value.vObj _ => "[object Object]"
  | Value.vArr es =>
    String.intercalate "," (es.attach.map (fun x =>
      match x with
      | ⟨Value.vNull, _⟩ => ""
      | ⟨v, _⟩ => jsToString v))

/-- Property access `doc[key]` on a document (objects only; on any other
value the access yields `undefined`). -/
def getProp (doc : Value) (key : String) : Option Value :=
  match doc with
  | Value.vObj fs => objLookup fs key
  | _ => none

/-- `(doc as any)._id?.toString()`: `none` models `undefined` (no `_id`
property, or an `_id` of `null`/`undefined` short-circuited by `?.`). -/
def jsIdString (doc : Value) : Option String :=
  match getProp doc "_id" with
  | some Value.vNull => none
  | some v => some (jsToString v)
  | none => none

/-- `doc._id?.toString() || index.toString()`: the document identity used
by `buildRegexDocumentIndex` (the `||` falls through on the empty string,
which is falsy). -/
def docIdOf (doc : Value) (index : Nat) : String :=
  match jsIdString doc with
  | some s => if s = "" then toString index else s
  | none => toString index

/-- `Array.prototype.filter` with the element index passed to the
callback, starting the count at `i`. -/
def filterIdxFrom {α : Type} (p : α → Nat → Bool) : List α → Nat → List α
  | [], _ => []
  | a :: as, i =>
    if p a i then a :: filterIdxFrom p as (i + 1) else filterIdxFrom p as (i + 1)

/-- `collection.filter((doc, index) => ...)`. -/
def filterIdx {α : Type} (p : α → Nat → Bool) (l : List α) : List α :=
  filterIdxFrom p l 0

/-! ## Substring containment

`SubstrIn sub s` states that `sub` occurs verbatim inside `s`; the Bool
checker `containsSub` decides it and is used to instantiate the abstract
pattern matcher in concrete witnesses. -/

/-- `sub` occurs as a contiguous substring of `s`. -/
def SubstrIn (sub s : String) : Prop :=
  ∃ pre post : List Char, s.data = pre ++ sub.data ++ post

/-- `leadsWith needle l` tests whether `l` starts with `needle`. -/
def leadsWith : List Char → List Char → Bool
  | [], _ => true
  | _ :: _, [] => false
  | a :: as, b :: bs => a = b && leadsWith as bs

/-- `containsSub needle l` tests whether `needle` occurs contiguously in `l`. -/
def containsSub (needle : List Char) : List Char → Bool
  | [] => needle.isEmpty
  | c :: rest => leadsWith needle (c :: rest) || containsSub needle rest

/-! ## Components modelled from the specification

`bloom-filter.ts` (`extractLiteralsFromRegex`, `extractTrigrams`,
`RegexSearchBloomFilter`) is imported by `regex-search.ts` but its source
is not part of the repository snapshot; the definitions in this section
are modelled from the specification's contracts for the LiteralExtractor
(§4.1), TrigramGenerator (§4.2), BloomIndex (§4.3) and the prefilter
probe (§4.5). -/

/-- The metacharacters of the complexity score: `. * + ? ^ $ { } ( ) | [ ] \`. -/
def regexMetaChars : List Char :=
  ['.', '*', '+', '?', '^', '$', '{', '}', '(', ')', '|', '[', ']', '\\']

/-- Close the literal run being accumulated (in reverse) and emit it if
non-empty. -/
def flushRun (acc : List Char) (out : List String) : List String :=
  if acc.isEmpty then out else String.mk acc.reverse :: out

/-- Modelled from the spec: the scanning loop of `extractLiteralsFromRegex`
(§4.1). State: remaining pattern characters, group-nesting depth, current
literal run (reversed), output (reversed). Fragments inside groups or
character classes are dropped, a character under a quantifier is removed
from its run, and escapes conservatively break runs. -/
def extractLiteralsLoop : List Char → Nat → List Char → List String → List String
  | [], _, acc, out => (flushRun acc out).reverse
  | c :: rest, depth, acc, out =>
    if 0 < depth then
      if c = '(' || c = '[' then extractLiteralsLoop rest (depth + 1) [] out
      else if c = ')' || c = ']' then extractLiteralsLoop rest (depth - 1) [] out
      else extractLiteralsLoop rest depth [] out
    else if c = '\\' then
      match rest with
      | [] => (flushRun acc out).reverse
      | _ :: rest2 => extractLiteralsLoop rest2 0 [] (flushRun acc out)
    else if c = '(' || c = '[' then extractLiteralsLoop rest 1 [] (flushRun acc out)
    else if c = '*' || c = '+' || c = '?' || c = '{' then
      extractLiteralsLoop rest 0 [] (flushRun (acc.drop 1) out)
    else if regexMetaChars.contains c then
      extractLiteralsLoop rest 0 [] (flushRun acc out)
    else extractLiteralsLoop rest 0 (c :: acc) out

/-- Modelled from the spec: `extractLiteralsFromRegex` from the missing
`bloom-filter.ts` (§4.1) — the literal substrings a pattern is certain to
require, extracted conservatively (a pattern containing an alternation
yields no literals at all; when in doubt a fragment is non-literal). Total:
malformed patterns degrade to fewer literals, never an error. -/
def extractLiteralsFromRegex (pattern : String) : List String :=
  if pattern.data.contains '|' then []
  else extractLiteralsLoop pattern.data 0 [] []

/-- Modelled from the spec: `extractTrigrams` from the missing
`bloom-filter.ts` (§4.2) — the distinct overlapping 3-character windows of
a string; strings shorter than 3 characters contribute none. -/
def extractTrigrams (s : String) : List String :=
  ((List.range (s.length - 2)).map
    (fun i => String.mk ((s.data.drop i).take 3))).dedup

/-- The ambient JavaScript runtime facilities the translated code calls
into: `new RegExp(pattern, options)` (yielding `none` when construction
throws, otherwise the `test` predicate) and the Bloom filter's family of
hash functions. -/
structure JsEnv where
  compile : String → String → Option (String → Bool)
  hash : Nat → String → Nat

/-- Modelled from the spec: `RegexSearchBloomFilter` from the missing
`bloom-filter.ts` (§4.3) — one bit array per indexed document identity,
with a bit-array size and hash-function count fixed at construction. A bit
array is represented by the list of positions that have been set. -/
structure RegexSearchBloomFilter where
  sizeBytes : Nat
  numHashes : Nat
  docs : List (String × List Nat)

/-- The bit positions a single trigram sets/tests: one per hash function,
reduced modulo the bit-array width. -/
def trigramPositions (env : JsEnv) (numHashes sizeBytes : Nat) (trigram : String) : List Nat :=
  (List.range numHashes).map (fun i => env.hash i trigram % (8 * sizeBytes))

/-- All bit positions set when a document text is inserted: those of every
trigram of the text. -/
def textPositions (env : JsEnv) (numHashes sizeBytes : Nat) (text : String) : List Nat :=
  (extractTrigrams text).flatMap (trigramPositions env numHashes sizeBytes)

/-- Set positions `ps` in the entry for `docId`, creating the entry if
absent (bit-setting only ever grows an entry, per §4.3 idempotent insert). -/
def addBits : List (String × List Nat) → String → List Nat → List (String × List Nat)
  | [], docId, ps => [(docId, ps)]
  | (k, b) :: rest, docId, ps =>
    if k = docId then (k, b ++ ps) :: rest else (k, b) :: addBits rest docId ps

/-- Modelled from the spec: `RegexSearchBloomFilter.addDocument` (§4.3
insert) — set, for every trigram of `text`, all hash positions in the
document's bit array. -/
def addDocument (env : JsEnv) (f : RegexSearchBloomFilter) (docId text : String) :
    RegexSearchBloomFilter :=
  { f with docs := addBits f.docs docId (textPositions env f.numHashes f.sizeBytes text) }

/-- The record destructured from `filter.testRegexPattern(pattern)`. -/
structure PatternTestResult where
  candidates : List String
  shouldUsePrefilter : Bool
  falsePositiveRate : ℚ

/-- Modelled from the spec: `RegexSearchBloomFilter.testRegexPattern`
(§4.5 steps 1–2) — extract the pattern's literals, derive every trigram of
every literal, and keep exactly the indexed document identities whose bit
arrays have all probed positions set (AND semantics across trigrams).
The prefilter is usable only when the pattern yields at least one trigram;
the estimated false-positive rate is diagnostic only (§4.3). -/
def testRegexPattern (env : JsEnv) (f : RegexSearchBloomFilter) (pattern : String) :
    PatternTestResult :=
  let literals := extractLiteralsFromRegex pattern
  let queryTrigrams := (literals.flatMap extractTrigrams).dedup
  let queryPositions := queryTrigrams.flatMap (trigramPositions env f.numHashes f.sizeBytes)
  { candidates :=
      (f.docs.filter (fun e => queryPositions.all (fun p => e.2.contains p))).map Prod.fst,
    shouldUsePrefilter := !queryTrigrams.isEmpty,
    falsePositiveRate := 0 }

/-! ## The translated `regex-search.ts` module

Module-level mutable state (`regexSearchStats`, `globalRegexSearchFilter`,
`defaultConfig`) is threaded explicitly as a `GlobalState`; `performance.now()`
readings are supplied by a `Timing` record (exact rational time stamps). -/

/-- The `RegexSearchStats` interface. Counters are naturals; rates, ratios
and accumulated times are exact rationals. -/
structure RegexSearchStats where
  totalQueries : Nat
  prefilterHits : Nat
  candidatesBeforeFilter : Nat
  candidatesAfterFilter : Nat
  actualMatches : Nat
  falsePositiveRate : ℚ
  averageSpeedupRatio : ℚ
  totalPrefilterTime : ℚ
  totalVerificationTime : ℚ
  unsupportedPatterns : Nat
  shortPatterns : Nat

/-- The initial `regexSearchStats` value, also re-installed by
`resetRegexSearchStats`. -/
def initialRegexSearchStats : RegexSearchStats :=
  { totalQueries := 0, prefilterHits := 0, candidatesBeforeFilter := 0,
    candidatesAfterFilter := 0, actualMatches := 0, falsePositiveRate := 0,
    averageSpeedupRatio := 1, totalPrefilterTime := 0,
    totalVerificationTime := 0, unsupportedPatterns := 0, shortPatterns := 0 }

/-- The `RegexSearchConfig` interface. -/
structure RegexSearchConfig where
  enableBloomFilter : Bool
  bloomFilterSizeBytes : Nat
  minLiteralLength : Nat
  maxPatternComplexity : Nat

/-- The module's initial `defaultConfig` value. -/
def initialDefaultConfig : RegexSearchConfig :=
  { enableBloomFilter := true, bloomFilterSizeBytes := 256,
    minLiteralLength := 3, maxPatternComplexity := 100 }

/-- `Partial<RegexSearchConfig>`: each recognized option may be absent. -/
structure PartialRegexSearchConfig where
  enableBloomFilter : Option Bool := none
  bloomFilterSizeBytes : Option Nat := none
  minLiteralLength : Option Nat := none
  maxPatternComplexity : Option Nat := none

/-- `{ ...base, ...p }` / `Object.assign(base, p)`: supplied keys win. -/
def mergeConfig (base : RegexSearchConfig) (p : PartialRegexSearchConfig) :
    RegexSearchConfig :=
  { enableBloomFilter := p.enableBloomFilter.getD base.enableBloomFilter,
    bloomFilterSizeBytes := p.bloomFilterSizeBytes.getD base.bloomFilterSizeBytes,
    minLiteralLength := p.minLiteralLength.getD base.minLiteralLength,
    maxPatternComplexity := p.maxPatternComplexity.getD base.maxPatternComplexity }

/-- The module's mutable state: `regexSearchStats`,
`globalRegexSearchFilter` and the runtime-configurable `defaultConfig`. -/
structure GlobalState where
  stats : RegexSearchStats
  filter : Option RegexSearchBloomFilter
  defaultConfig : RegexSearchConfig

/-- The state of the module when first loaded. -/
def initialGlobalState : GlobalState :=
  { stats := initialRegexSearchStats, filter := none,
    defaultConfig := initialDefaultConfig }

/-- The `performance.now()` readings taken during one
`enhancedRegexMatch` call, in source order. -/
structure Timing where
  startTime : ℚ
  prefilterStartTime : ℚ
  prefilterEndTime : ℚ
  verificationStartTime : ℚ
  verificationEndTime : ℚ
  endTime : ℚ

/-- `getGlobalRegexFilter()`: reuse the built filter, else construct
`new RegexSearchBloomFilter(defaultConfig.bloomFilterSizeBytes, 3)`. -/
def getGlobalRegexFilter (st : GlobalState) : RegexSearchBloomFilter :=
  match st.filter with
  | some f => f
  | none =>
    { sizeBytes := st.defaultConfig.bloomFilterSizeBytes, numHashes := 3, docs := [] }

/-- `performFullRegexSearch`: compile the pattern once (an invalid pattern
yields the empty result), then keep exactly the documents whose resolved
field value is a string accepted by the matcher. -/
def performFullRegexSearch (env : JsEnv) (collection : List Value)
    (field pattern options : String) : List Value :=
  match env.compile pattern options with
  | none => []
  | some regex =>
    collection.filter (fun doc =>
      match getNestedFieldValue doc field with
      | some (Value.vStr s) => regex s
      | _ => false)

/-- The `collection.forEach((doc, index) => ...)` loop of
`buildRegexDocumentIndex`, with the running index made explicit. -/
def buildIndexFrom (env : JsEnv) (field : String) :
    List Value → Nat → RegexSearchBloomFilter → RegexSearchBloomFilter
  | [], _, f => f
  | doc :: rest, index, f =>
    buildIndexFrom env field rest (index + 1)
      (match getNestedFieldValue doc field with
       | some (Value.vStr s) => addDocument env f (docIdOf doc index) s
       | _ => f)

/-- `buildRegexDocumentIndex`: insert every document whose resolved field
value is a string, under its resolved identity. -/
def buildRegexDocumentIndex (env : JsEnv) (collection : List Value) (field : String)
    (f : RegexSearchBloomFilter) : RegexSearchBloomFilter :=
  buildIndexFrom env field collection 0 f

/-- The candidate-selection predicate of `enhancedRegexMatch`:
`candidateSet.has(index.toString()) || candidateSet.has(doc._id?.toString())`. -/
def candidateDocPred (candidates : List String) (doc : Value) (index : Nat) : Bool :=
  candidates.contains (toString index) ||
    (match jsIdString doc with
     | some s => candidates.contains s
     | none => false)

/-- `enhancedRegexMatch`: the enhanced `$regex` operator. Returns the
filtered collection and the updated module state. The `0.7` effectiveness
threshold is modelled in exact arithmetic
(`candidates.length > collection.length * 0.7` as `7·|coll| < 10·|cands|`). -/
def enhancedRegexMatch (env : JsEnv) (t : Timing) (collection : List Value)
    (field pattern options : String) (config : PartialRegexSearchConfig)
    (st : GlobalState) : List Value × GlobalState :=
  let mergedConfig := mergeConfig st.defaultConfig config
  let st1 : GlobalState :=
    { st with stats := { st.stats with totalQueries := st.stats.totalQueries + 1 } }
  if pattern = "" then ([], st1)
  else
    let literals := extractLiteralsFromRegex pattern
    let hasUsefulLiterals := literals.any (fun lit => mergedConfig.minLiteralLength ≤ lit.length)
    let tooLong : Bool := decide (mergedConfig.maxPatternComplexity < pattern.length)
    if !mergedConfig.enableBloomFilter || !hasUsefulLiterals || tooLong then
      let st2 :=
        if !hasUsefulLiterals then
          { st1 with stats := { st1.stats with shortPatterns := st1.stats.shortPatterns + 1 } }
        else st1
      let st3 :=
        if tooLong then
          { st2 with stats :=
              { st2.stats with unsupportedPatterns := st2.stats.unsupportedPatterns + 1 } }
        else st2
      (performFullRegexSearch env collection field pattern options, st3)
    else
      let filter := buildRegexDocumentIndex env collection field (getGlobalRegexFilter st)
      let testResult := testRegexPattern env filter pattern
      let candidates := testResult.candidates
      let st2 : GlobalState :=
        { st1 with
          filter := some filter,
          stats := { st1.stats with
            candidatesBeforeFilter := st1.stats.candidatesBeforeFilter + collection.length,
            candidatesAfterFilter := st1.stats.candidatesAfterFilter + candidates.length,
            totalPrefilterTime :=
              st1.stats.totalPrefilterTime + (t.prefilterEndTime - t.prefilterStartTime) } }
      if !testResult.shouldUsePrefilter || decide (7 * collection.length < 10 * candidates.length) then
        (performFullRegexSearch env collection field pattern options, st2)
      else
        let st3 :=
          { st2 with stats := { st2.stats with prefilterHits := st2.stats.prefilterHits + 1 } }
        let candidateDocs := filterIdx (candidateDocPred candidates) collection
        let results := performFullRegexSearch env candidateDocs field pattern options
        let st4 :=
          { st3 with stats := { st3.stats with
              totalVerificationTime :=
                st3.stats.totalVerificationTime +
                  (t.verificationEndTime - t.verificationStartTime),
              actualMatches := st3.stats.actualMatches + results.length } }
        let totalTime := t.endTime - t.startTime
        let estimatedFullScanTime :=
          (totalTime / (candidateDocs.length : ℚ)) * (collection.length : ℚ)
        let speedupRatio : ℚ :=
          if 0 < candidateDocs.length then estimatedFullScanTime / totalTime else 1
        let st5 :=
          { st4 with stats := { st4.stats with
              averageSpeedupRatio :=
                (st4.stats.averageSpeedupRatio * ((st4.stats.totalQueries : ℚ) - 1) +
                    speedupRatio) / (st4.stats.totalQueries : ℚ) } }
        (results, st5)

/-- The record returned by `analyzeRegexPattern`. -/
structure RegexPatternAnalysis where
  literals : List String
  trigrams : List String
  suitableForBloom : Bool
  complexity : Nat

/-- `analyzeRegexPattern`: extracted literals, their trigrams, the
complexity score (pattern length plus metacharacter count) and the
suitability verdict. -/
def analyzeRegexPattern (pattern : String) : RegexPatternAnalysis :=
  let literals := extractLiteralsFromRegex pattern
  let trigrams := literals.flatMap extractTrigrams
  let complexity :=
    pattern.length + (pattern.data.filter (fun c => regexMetaChars.contains c)).length
  { literals := literals, trigrams := trigrams,
    suitableForBloom := literals.any (fun lit => 3 ≤ lit.length) && complexity ≤ 100,
    complexity := complexity }

/-- `resetRegexSearchStats()`: re-install the initial statistics record. -/
def resetRegexSearchStats (st : GlobalState) : GlobalState :=
  { st with stats := initialRegexSearchStats }

/-- `configureRegexSearch(config)`: `Object.assign(defaultConfig, config)`,
then drop the global filter when a bit-array size was supplied or Bloom
filtering was switched off. -/
def configureRegexSearch (config : PartialRegexSearchConfig) (st : GlobalState) :
    GlobalState :=
  let newDefaults := mergeConfig st.defaultConfig config
  if st.filter.isSome &&
      (config.bloomFilterSizeBytes.isSome || config.enableBloomFilter == some false) then
    { st with defaultConfig := newDefaults, filter := none }
  else
    { st with defaultConfig := newDefaults }

/-- `clearRegexSearchIndex()`: drop the global filter entirely. -/
def clearRegexSearchIndex (st : GlobalState) : GlobalState :=
  { st with filter := none }

/-- The bit array recorded for a document identity (the first matching
entry; empty when the identity is not indexed). -/
def bitsOf : List (String × List Nat) → String → List Nat
  | [], _ => []
  | (k, b) :: rest, docId => if k = docId then b else bitsOf rest docId

/-- Whether a document identity is present in the index. -/
def hasEntry : List (String × List Nat) → String → Bool
  | [], _ => false
  | (k, _) :: rest, docId => decide (k = docId) || hasEntry rest docId

/-- One argument tuple for an `enhancedRegexMatch` call. -/
structure RegexCallArgs where
  env : JsEnv
  timing : Timing
  collection : List Value
  field : String
  pattern : String
  options : String
  config : PartialRegexSearchConfig

/-- Run a sequence of `enhancedRegexMatch` calls against the module state,
discarding the returned collections. -/
def runRegexCalls : List RegexCallArgs → GlobalState → GlobalState
  | [], st => st
  | a :: rest, st =>
    runRegexCalls rest
      (enhancedRegexMatch a.env a.timing a.collection a.field a.pattern a.options a.config st).2

/-- A concrete runtime environment for witnesses: the matcher compiled for
pattern `p` accepts exactly the strings containing `p` verbatim, and every
hash function is constant zero. -/
def wEnv : JsEnv :=
  { compile := fun p _ => some (fun s => containsSub p.data s.data),
    hash := fun _ _ => 0 }

/-- A runtime environment whose pattern compiler always throws. -/
def wEnvBad : JsEnv :=
  { compile := fun _ _ => none, hash := fun _ _ => 0 }

/-- Zero time stamps for witnesses. -/
def wTiming : Timing := ⟨0, 0, 0, 0, 0, 0⟩

/-- The witness document `{ text: "hello world" }`. -/
def wDoc : Value := Value.vObj [("text", Value.vStr "hello world")]

/-- A module state in which Bloom filtering has been switched off via
`configureRegexSearch`. -/
def wStateBF : GlobalState :=
  configureRegexSearch { enableBloomFilter := some false } initialGlobalState

/-- A module state in which the global index was then built by a query
that re-enabled the Bloom filter through its per-call override. -/
def wStateBuilt : GlobalState :=
  (enhancedRegexMatch wEnv wTiming [wDoc] "text" "hello" ""
    { enableBloomFilter := some true } wStateBF).2

/-! ## Substring lemmas -/

theorem leadsWith_iff {needle l : List Char} :
    leadsWith needle l = true ↔ ∃ t, l = needle ++ t := by
  induction needle generalizing l with
  | nil => simp [leadsWith]
  | cons a as ih =>
    cases l with
    | nil => simp [leadsWith]
    | cons b bs =>
      simp only [leadsWith, Bool.and_eq_true, decide_eq_true_eq, ih, List.cons_append,
        List.cons.injEq]
      constructor
      · rintro ⟨rfl, t, rfl⟩; exact ⟨t, rfl, rfl⟩
      · rintro ⟨t, rfl, rfl⟩; exact ⟨rfl, t, rfl⟩

theorem containsSub_iff {needle l : List Char} :
    containsSub needle l = true ↔ ∃ pre post, l = pre ++ needle ++ post := by
  induction l with
  | nil =>
    simp only [containsSub, List.isEmpty_iff]
    constructor
    · rintro rfl; exact ⟨[], [], rfl⟩
    · rintro ⟨pre, post, h⟩
      rcases List.append_eq_nil.mp (List.append_eq_nil.mp h.symm).1 with ⟨-, h2⟩
      exact h2
  | cons c rest ih =>
    simp only [containsSub, Bool.or_eq_true, leadsWith_iff, ih]
    constructor
    · rintro (⟨t, h⟩ | ⟨pre, post, h⟩)
      · exact ⟨[], t, by simp [h]⟩
      · exact ⟨c :: pre, post, by simp [h]⟩
    · rintro ⟨pre, post, h⟩
      cases pre with
      | nil => exact Or.inl ⟨post, by simpa using h⟩
      | cons p ps =>
        simp only [List.cons_append, List.cons.injEq] at h
        exact Or.inr ⟨ps, post, h.2⟩

theorem SubstrIn_iff_containsSub {sub s : String} :
    SubstrIn sub s ↔ containsSub sub.data s.data = true := by
  rw [containsSub_iff]; rfl

/-- Every element of `extractTrigrams s` is a 3-character window of `s`:
it equals `String.mk ((s.data.drop i).take 3)` for some `i < s.length - 2`. -/
theorem mem_extractTrigrams_elim {tri s : String} (h : tri ∈ extractTrigrams s) :
    ∃ i, i < s.length - 2 ∧ tri = String.mk ((s.data.drop i).take 3) := by
  unfold extractTrigrams at h
  rw [List.mem_dedup, List.mem_map] at h
  rcases h with ⟨i, hi, rfl⟩
  exact ⟨i, List.mem_range.mp hi, rfl⟩

theorem length_of_mem_extractTrigrams {tri s : String} (h : tri ∈ extractTrigrams s) :
    tri.length = 3 := by
  rcases mem_extractTrigrams_elim h with ⟨i, hi, rfl⟩
  show ((s.data.drop i).take 3).length = 3
  have hlen : s.length = s.data.length := rfl
  rw [List.length_take, List.length_drop]
  omega

theorem substrIn_of_mem_extractTrigrams {tri s : String} (h : tri ∈ extractTrigrams s) :
    SubstrIn tri s := by
  rcases mem_extractTrigrams_elim h with ⟨i, hi, rfl⟩
  refine ⟨s.data.take i, (s.data.drop i).drop 3, ?_⟩
  show s.data = s.data.take i ++ (s.data.drop i).take 3 ++ (s.data.drop i).drop 3
  rw [List.append_assoc, List.take_append_drop, List.take_append_drop]

theorem SubstrIn.trans {a b c : String} (hab : SubstrIn a b) (hbc : SubstrIn b c) :
    SubstrIn a c := by
  rcases hab with ⟨p1, q1, h1⟩
  rcases hbc with ⟨p2, q2, h2⟩
  exact ⟨p2 ++ p1, q1 ++ q2, by rw [h2, h1]; simp⟩

/-- A 3-character substring of `s` is one of its extracted trigrams. -/
theorem mem_extractTrigrams_of_substrIn {tri s : String} (hlen : tri.length = 3)
    (h : SubstrIn tri s) : tri ∈ extractTrigrams s := by
  rcases h with ⟨pre, post, hsplit⟩
  unfold extractTrigrams
  rw [List.mem_dedup, List.mem_map]
  refine ⟨pre.length, List.mem_range.mpr ?_, ?_⟩
  · have hL := congrArg List.length hsplit
    simp only [List.length_append] at hL
    have h3 : tri.data.length = 3 := hlen
    have hslen : s.length = s.data.length := rfl
    omega
  · have hdrop : s.data.drop pre.length = tri.data ++ post := by
      rw [hsplit, List.append_assoc, List.drop_left]
    have htake : (s.data.drop pre.length).take 3 = tri.data := by
      rw [hdrop, List.take_left' (by exact hlen)]
    rw [htake]

/-! ## Bloom index lemmas: inserting only ever sets more bits, and a fully
probed identity is reported as a candidate. -/

theorem hasEntry_addBits_self (docs : List (String × List Nat)) (docId : String)
    (ps : List Nat) : hasEntry (addBits docs docId ps) docId = true := by
  induction docs with
  | nil => simp [addBits, hasEntry]
  | cons e rest ih =>
    obtain ⟨k, b⟩ := e
    by_cases hk : k = docId <;> simp [addBits, hasEntry, hk, ih]

theorem hasEntry_addBits_mono {docs : List (String × List Nat)} {d : String}
    (h : hasEntry docs d = true) (docId : String) (ps : List Nat) :
    hasEntry (addBits docs docId ps) d = true := by
  induction docs with
  | nil => simp [hasEntry] at h
  | cons e rest ih =>
    obtain ⟨k, b⟩ := e
    simp only [hasEntry, Bool.or_eq_true, decide_eq_true_eq] at h
    by_cases hk : k = docId
    · simp only [addBits, if_pos hk, hasEntry, Bool.or_eq_true, decide_eq_true_eq]
      exact h
    · simp only [addBits, if_neg hk, hasEntry, Bool.or_eq_true, decide_eq_true_eq]
      rcases h with h | h
      · exact Or.inl h
      · exact Or.inr (ih h)

theorem mem_bitsOf_addBits_self {p : Nat} {ps : List Nat}
    (docs : List (String × List Nat)) (docId : String) (hp : p ∈ ps) :
    p ∈ bitsOf (addBits docs docId ps) docId := by
  induction docs with
  | nil => simp [addBits, bitsOf, hp]
  | cons e rest ih =>
    obtain ⟨k, b⟩ := e
    by_cases hk : k = docId <;> simp [addBits, bitsOf, hk, hp, ih]

theorem mem_bitsOf_addBits_mono {p : Nat} {docs : List (String × List Nat)} {d : String}
    (h : p ∈ bitsOf docs d) (docId : String) (ps : List Nat) :
    p ∈ bitsOf (addBits docs docId ps) d := by
  induction docs with
  | nil => simp [bitsOf] at h
  | cons e rest ih =>
    obtain ⟨k, b⟩ := e
    by_cases hk : k = docId
    · by_cases hd : k = d <;> simp_all [addBits, bitsOf, hk, hd]
    · by_cases hd : k = d <;> simp_all [addBits, bitsOf, hk, hd]

/-- The first entry recorded for an indexed identity is an element of the
entry list. -/
theorem exists_entry_of_hasEntry {docs : List (String × List Nat)} {docId : String}
    (he : hasEntry docs docId = true) : (docId, bitsOf docs docId) ∈ docs := by
  induction docs with
  | nil => simp [hasEntry] at he
  | cons e rest ih =>
    obtain ⟨k, b⟩ := e
    by_cases hk : k = docId
    · subst hk
      simp only [bitsOf, if_pos rfl]
      exact List.mem_cons_self _ _
    · simp only [hasEntry, Bool.or_eq_true, decide_eq_true_eq] at he
      rcases he with he | he
      · exact absurd he hk
      · simp only [bitsOf, if_neg hk]
        exact List.mem_cons_of_mem _ (ih he)

/-- An indexed identity whose bit array has every probed position set is
reported as a candidate by the prefilter's entry scan. -/
theorem mem_candidates_of_bits {docs : List (String × List Nat)} {docId : String}
    {qps : List Nat} (he : hasEntry docs docId = true)
    (hb : ∀ p ∈ qps, p ∈ bitsOf docs docId) :
    docId ∈ (docs.filter (fun e => qps.all (fun p => e.2.contains p))).map Prod.fst := by
  refine List.mem_map.mpr
    ⟨(docId, bitsOf docs docId), List.mem_filter.mpr ⟨exists_entry_of_hasEntry he, ?_⟩, rfl⟩
  show (qps.all fun p => (bitsOf docs docId).contains p) = true
  rw [List.all_eq_true]
  intro p hp
  exact List.elem_iff.mpr (hb p hp)

/-! ## Index-builder lemmas -/

theorem buildIndexFrom_sizeBytes (env : JsEnv) (field : String) :
    ∀ (coll : List Value) (j : Nat) (f : RegexSearchBloomFilter),
      (buildIndexFrom env field coll j f).sizeBytes = f.sizeBytes := by
  intro coll
  induction coll with
  | nil => intro j f; rfl
  | cons doc rest ih =>
    intro j f
    unfold buildIndexFrom
    rw [ih]
    rcases getNestedFieldValue doc field with _ | v
    · rfl
    · cases v <;> rfl

theorem buildIndexFrom_numHashes (env : JsEnv) (field : String) :
    ∀ (coll : List Value) (j : Nat) (f : RegexSearchBloomFilter),
      (buildIndexFrom env field coll j f).numHashes = f.numHashes := by
  intro coll
  induction coll with
  | nil => intro j f; rfl
  | cons doc rest ih =>
    intro j f
    unfold buildIndexFrom
    rw [ih]
    rcases getNestedFieldValue doc field with _ | v
    · rfl
    · cases v <;> rfl

theorem buildIndexFrom_bits_mono (env : JsEnv) (field : String) :
    ∀ (coll : List Value) (j : Nat) (f : RegexSearchBloomFilter) (p : Nat) (d : String),
      p ∈ bitsOf f.docs d → p ∈ bitsOf (buildIndexFrom env field coll j f).docs d := by
  intro coll
  induction coll with
  | nil => intro j f p d h; exact h
  | cons doc rest ih =>
    intro j f p d h
    unfold buildIndexFrom
    apply ih
    rcases getNestedFieldValue doc field with _ | v
    · exact h
    · cases v <;> try exact h
      exact mem_bitsOf_addBits_mono h _ _

theorem buildIndexFrom_hasEntry_mono (env : JsEnv) (field : String) :
    ∀ (coll : List Value) (j : Nat) (f : RegexSearchBloomFilter) (d : String),
      hasEntry f.docs d = true → hasEntry (buildIndexFrom env field coll j f).docs d = true := by
  intro coll
  induction coll with
  | nil => intro j f d h; exact h
  | cons doc rest ih =>
    intro j f d h
    unfold buildIndexFrom
    apply ih
    rcases getNestedFieldValue doc field with _ | v
    · exact h
    · cases v <;> try exact h
      exact hasEntry_addBits_mono h _ _

/-- After the index build, a document whose resolved field value is the
string `s` is indexed under its resolved identity with every bit of `s`
set. -/
theorem buildIndexFrom_complete (env : JsEnv) (field : String) :
    ∀ (coll : List Value) (i j : Nat) (f : RegexSearchBloomFilter) (doc : Value) (s : String),
      coll.get? i = some doc →
      getNestedFieldValue doc field = some (Value.vStr s) →
      hasEntry (buildIndexFrom env field coll j f).docs (docIdOf doc (j + i)) = true ∧
      ∀ p ∈ textPositions env f.numHashes f.sizeBytes s,
        p ∈ bitsOf (buildIndexFrom env field coll j f).docs (docIdOf doc (j + i)) := by
  intro coll
  induction coll with
  | nil => intro i j f doc s hget; simp [List.get?] at hget
  | cons doc0 rest ih =>
    intro i j f doc s hget hval
    cases i with
    | zero =>
      obtain rfl : doc0 = doc := by simpa [List.get?] using hget
      unfold buildIndexFrom
      rw [hval]
      constructor
      · exact buildIndexFrom_hasEntry_mono env field rest (j + 1) _ _
          (hasEntry_addBits_self _ _ _)
      · intro p hp
        exact buildIndexFrom_bits_mono env field rest (j + 1) _ p _
          (mem_bitsOf_addBits_self _ _ hp)
    | succ i2 =>
      have hget2 : rest.get? i2 = some doc := by simpa [List.get?] using hget
      unfold buildIndexFrom
      have harith : j + (i2 + 1) = (j + 1) + i2 := by omega
      rw [harith]
      rcases hv : getNestedFieldValue doc0 field with _ | v
      · exact ih i2 (j + 1) f doc s hget2 hval
      · cases v
        case vStr s0 =>
          have hn := buildIndexFrom_numHashes env field rest (j + 1)
            (addDocument env f (docIdOf doc0 j) s0)
          have happ := ih i2 (j + 1) (addDocument env f (docIdOf doc0 j) s0) doc s hget2 hval
          exact ⟨happ.1, fun p hp => happ.2 p hp⟩
        all_goals exact ih i2 (j + 1) f doc s hget2 hval

/-! ## Verifier and filter lemmas -/

theorem performFullRegexSearch_sublist (env : JsEnv) (coll : List Value)
    (field pattern options : String) :
    (performFullRegexSearch env coll field pattern options).Sublist coll := by
  unfold performFullRegexSearch
  rcases env.compile pattern options with _ | m
  · exact List.nil_sublist _
  · exact List.filter_sublist _

theorem performFullRegexSearch_compile_none {env : JsEnv} {coll : List Value}
    {field pattern options : String} (h : env.compile pattern options = none) :
    performFullRegexSearch env coll field pattern options = [] := by
  unfold performFullRegexSearch
  rw [h]

theorem mem_performFullRegexSearch_iff {env : JsEnv} {coll : List Value}
    {field pattern options : String} {doc : Value} :
    doc ∈ performFullRegexSearch env coll field pattern options ↔
      ∃ m, env.compile pattern options = some m ∧ doc ∈ coll ∧
        ∃ s, getNestedFieldValue doc field = some (Value.vStr s) ∧ m s = true := by
  unfold performFullRegexSearch
  rcases hc : env.compile pattern options with _ | m
  · simp
  · rw [List.mem_filter]
    constructor
    · rintro ⟨hmem, hp⟩
      refine ⟨m, rfl, hmem, ?_⟩
      rcases hv : getNestedFieldValue doc field with _ | v
      · rw [hv] at hp; exact absurd hp (by simp)
      · cases v <;> rw [hv] at hp
        case vStr s => exact ⟨s, rfl, hp⟩
        all_goals exact absurd hp (by simp)
    · rintro ⟨m2, hm2, hmem, s, hv, hs⟩
      obtain rfl : m = m2 := Option.some.inj hm2
      refine ⟨hmem, ?_⟩
      rw [hv]
      exact hs

theorem filterIdxFrom_sublist {α : Type} (p : α → Nat → Bool) :
    ∀ (l : List α) (j : Nat), (filterIdxFrom p l j).Sublist l := by
  intro l
  induction l with
  | nil => intro j; exact List.nil_sublist _
  | cons a as ih =>
    intro j
    unfold filterIdxFrom
    by_cases h : p a j
    · rw [if_pos h]; exact List.Sublist.cons₂ a (ih (j + 1))
    · rw [if_neg h]; exact List.Sublist.cons a (ih (j + 1))

theorem mem_filterIdxFrom {α : Type} (p : α → Nat → Bool) :
    ∀ (l : List α) (i j : Nat) (a : α), l.get? i = some a → p a (j + i) = true →
      a ∈ filterIdxFrom p l j := by
  intro l
  induction l with
  | nil => intro i j a hget; simp [List.get?] at hget
  | cons b bs ih =>
    intro i j a hget hp
    cases i with
    | zero =>
      obtain rfl : b = a := by simpa [List.get?] using hget
      unfold filterIdxFrom
      rw [if_pos (by simpa using hp)]
      exact List.mem_cons_self _ _
    | succ i2 =>
      have hget2 : bs.get? i2 = some a := by simpa [List.get?] using hget
      have hp2 : p a ((j + 1) + i2) = true := by
        have : (j + 1) + i2 = j + (i2 + 1) := by omega
        rw [this]; exact hp
      unfold filterIdxFrom
      by_cases h : p b j
      · rw [if_pos h]; exact List.mem_cons_of_mem _ (ih i2 (j + 1) a hget2 hp2)
      · rw [if_neg h]; exact ih i2 (j + 1) a hget2 hp2

/-- If a document identity is among the candidates, the candidate-selection
predicate accepts the document at its index. -/
theorem candidateDocPred_of_docId {cands : List String} {doc : Value} {i : Nat}
    (h : docIdOf doc i ∈ cands) : candidateDocPred cands doc i = true := by
  unfold candidateDocPred
  unfold docIdOf at h
  rcases hid : jsIdString doc with _ | s
  · rw [hid] at h
    change toString i ∈ cands at h
    change (cands.contains (toString i) || false) = true
    rw [Bool.or_eq_true]
    exact Or.inl (List.elem_iff.mpr h)
  · rw [hid] at h
    change (if s = "" then toString i else s) ∈ cands at h
    change (cands.contains (toString i) || cands.contains s) = true
    rw [Bool.or_eq_true]
    by_cases hs : s = ""
    · rw [if_pos hs] at h
      exact Or.inl (List.elem_iff.mpr h)
    · rw [if_neg hs] at h
      exact Or.inr (List.elem_iff.mpr h)

/-- Every path through `enhancedRegexMatch` returns `[]`, the full scan,
or the full scan of an index-filtered subcollection. -/
theorem enhancedRegexMatch_fst_cases (env : JsEnv) (t : Timing) (collection : List Value)
    (field pattern options : String) (config : PartialRegexSearchConfig) (st : GlobalState) :
    (enhancedRegexMatch env t collection field pattern options config st).1 = [] ∨
    (enhancedRegexMatch env t collection field pattern options config st).1 =
      performFullRegexSearch env collection field pattern options ∨
    ∃ cands : List String,
      (enhancedRegexMatch env t collection field pattern options config st).1 =
        performFullRegexSearch env (filterIdx (candidateDocPred cands) collection)
          field pattern options := by
  simp only [enhancedRegexMatch]
  split
  · exact Or.inl rfl
  · split
    · exact Or.inr (Or.inl rfl)
    · split
      · exact Or.inr (Or.inl rfl)
      · exact Or.inr (Or.inr ⟨_, rfl⟩)

/-- The empty-pattern guard: the call short-circuits to the empty result
after bumping `totalQueries`. -/
theorem enhancedRegexMatch_empty (env : JsEnv) (t : Timing) (collection : List Value)
    (field options : String) (config : PartialRegexSearchConfig) (st : GlobalState) :
    enhancedRegexMatch env t collection field "" options config st =
      ([], { st with stats :=
        { st.stats with totalQueries := st.stats.totalQueries + 1 } }) := rfl

/-! ## Claim theorems -/

/-- **C10**: for every collection, field, options, configuration and state,
calling `enhancedRegexMatch` with the empty string as the pattern returns
the empty collection while still incrementing `totalQueries` (the guard
`!pattern` short-circuits before any matcher is built, even though the
empty pattern would compile to a match-everything regular expression). -/
theorem c10_empty_pattern (env : JsEnv) (t : Timing) (collection : List Value)
    (field options : String) (config : PartialRegexSearchConfig) (st : GlobalState) :
    enhancedRegexMatch env t collection field "" options config st =
      ([], { st with stats :=
        { st.stats with totalQueries := st.stats.totalQueries + 1 } }) :=
  enhancedRegexMatch_empty env t collection field options config st

/-- **C3**: if the pattern cannot be compiled into a matcher, every path
of `enhancedRegexMatch` returns the empty collection; being a total
function, no exception propagates to the caller. -/
theorem c3_invalid_pattern (env : JsEnv) (t : Timing) (collection : List Value)
    (field pattern options : String) (config : PartialRegexSearchConfig)
    (st : GlobalState) (h : env.compile pattern options = none) :
    (enhancedRegexMatch env t collection field pattern options config st).1 = [] := by
  rcases enhancedRegexMatch_fst_cases env t collection field pattern options config st with
    hc | hc | ⟨cands, hc⟩
  · exact hc
  · rw [hc]; exact performFullRegexSearch_compile_none h
  · rw [hc]; exact performFullRegexSearch_compile_none h

/-- Witness for C3 at a concrete unbalanced-parenthesis pattern. -/
theorem c3_invalid_pattern_witness :
    (enhancedRegexMatch wEnvBad wTiming [wDoc] "text" "(abc" "" {} initialGlobalState).1
      = [] :=
  c3_invalid_pattern wEnvBad wTiming [wDoc] "text" "(abc" "" {} initialGlobalState rfl

/-- **C4**: on every path (prefiltered or full-scan) the result of
`enhancedRegexMatch` is a sublist of the input collection: each result
document occurs in the input, no duplicates are introduced, and the
input's relative order is preserved. -/
theorem c4_order_preserving_subsequence (env : JsEnv) (t : Timing)
    (collection : List Value) (field pattern options : String)
    (config : PartialRegexSearchConfig) (st : GlobalState) :
    ((enhancedRegexMatch env t collection field pattern options config st).1).Sublist
      collection := by
  rcases enhancedRegexMatch_fst_cases env t collection field pattern options config st with
    hc | hc | ⟨cands, hc⟩ <;> rw [hc]
  · exact List.nil_sublist _
  · exact performFullRegexSearch_sublist env collection field pattern options
  · exact (performFullRegexSearch_sublist env _ field pattern options).trans
      (filterIdxFrom_sublist (candidateDocPred cands) collection 0)

/-- **C5**: dotted-path resolution hits no error — a non-object value
mid-path yields no value, a missing key yields no value, and once the
traversal has no value it stays without one — and any document whose
resolved field value is missing or not a string is excluded from the
match result of `enhancedRegexMatch`. -/
theorem c5_missing_or_nonstring_fields :
    (∀ (v : Value) (key : String), jsIsObject v = false → stepField (some v) key = none)
    ∧ (∀ (fs : List (String × Value)) (key : String), objLookup fs key = none →
        stepField (some (Value.vObj fs)) key = none)
    ∧ (∀ keys : List String, keys.foldl stepField none = none)
    ∧ (∀ (env : JsEnv) (t : Timing) (collection : List Value)
        (field pattern options : String) (config : PartialRegexSearchConfig)
        (st : GlobalState) (doc : Value),
        doc ∈ (enhancedRegexMatch env t collection field pattern options config st).1 →
        ∃ s, getNestedFieldValue doc field = some (Value.vStr s)) := by
  refine ⟨?_, ?_, ?_, ?_⟩
  · intro v key hv
    cases v <;> first | rfl | simp [jsIsObject] at hv
  · intro fs key h
    exact h
  · intro keys
    induction keys with
    | nil => rfl
    | cons k ks ih => exact ih
  · intro env t collection field pattern options config st doc hd
    rcases enhancedRegexMatch_fst_cases env t collection field pattern options config st with
      hc | hc | ⟨cands, hc⟩ <;> rw [hc] at hd
    · cases hd
    · rcases mem_performFullRegexSearch_iff.mp hd with ⟨m, -, -, s, hv, -⟩
      exact ⟨s, hv⟩
    · rcases mem_performFullRegexSearch_iff.mp hd with ⟨m, -, -, s, hv, -⟩
      exact ⟨s, hv⟩

/-- Witness for C5: a string value mid-path yields no value, and a
concretely matched document resolves to a string field value. -/
theorem c5_missing_or_nonstring_fields_witness :
    stepField (some (Value.vStr "zz")) "k" = none ∧
    ∃ s, getNestedFieldValue wDoc "text" = some (Value.vStr s) := by
  constructor
  · exact c5_missing_or_nonstring_fields.1 (Value.vStr "zz") "k" rfl
  · refine c5_missing_or_nonstring_fields.2.2.2 wEnv wTiming [wDoc] "text" "hello" "" {}
      initialGlobalState wDoc ?_
    rw [show (enhancedRegexMatch wEnv wTiming [wDoc] "text" "hello" "" {}
      initialGlobalState).1 = [wDoc] from rfl]
    exact List.mem_singleton_self wDoc

/-- Every call to `enhancedRegexMatch` increments `totalQueries` by
exactly one, on every path. -/
theorem enhancedRegexMatch_totalQueries (env : JsEnv) (t : Timing)
    (collection : List Value) (field pattern options : String)
    (config : PartialRegexSearchConfig) (st : GlobalState) :
    ((enhancedRegexMatch env t collection field pattern options config st).2).stats.totalQueries
      = st.stats.totalQueries + 1 := by
  simp only [enhancedRegexMatch]
  split
  · rfl
  · split
    · split <;> split <;> rfl
    · split <;> rfl

/-- Folding call sequences adds their length to `totalQueries`. -/
theorem runRegexCalls_totalQueries :
    ∀ (calls : List RegexCallArgs) (st : GlobalState),
      (runRegexCalls calls st).stats.totalQueries =
        st.stats.totalQueries + calls.length := by
  intro calls
  induction calls with
  | nil => intro st; rfl
  | cons a rest ih =>
    intro st
    unfold runRegexCalls
    rw [ih, enhancedRegexMatch_totalQueries]
    simp only [List.length_cons]
    omega

/-- **C8**: starting from the initial statistics state, after any sequence
of calls to `enhancedRegexMatch` (with any arguments) and no reset,
`totalQueries` equals the number of calls; and `resetRegexSearchStats`
returns every counter to its initial value (all counts and times `0`,
`falsePositiveRate` `0`, `averageSpeedupRatio` `1`). -/
theorem c8_stats_consistency (calls : List RegexCallArgs) (st0 : GlobalState)
    (h : st0.stats.totalQueries = 0) :
    (runRegexCalls calls st0).stats.totalQueries = calls.length ∧
    (∀ st : GlobalState, (resetRegexSearchStats st).stats = initialRegexSearchStats) := by
  refine ⟨?_, fun st => rfl⟩
  rw [runRegexCalls_totalQueries, h, Nat.zero_add]

/-- Two concrete calls for the C8 witness. -/
def wCallA : RegexCallArgs := ⟨wEnv, wTiming, [wDoc], "text", "hello", "", {}⟩

/-- A second concrete call (empty collection, empty pattern). -/
def wCallB : RegexCallArgs := ⟨wEnv, wTiming, [], "text", "", "", {}⟩

/-- Witness for C8 at a concrete two-call sequence. -/
theorem c8_stats_consistency_witness :
    (runRegexCalls [wCallA, wCallB] initialGlobalState).stats.totalQueries = 2 ∧
    (∀ st : GlobalState, (resetRegexSearchStats st).stats = initialRegexSearchStats) :=
  c8_stats_consistency [wCallA, wCallB] initialGlobalState rfl

/-- When the pattern yields no literal reaching the configured minimum
length, `enhancedRegexMatch` (on a non-empty pattern) hands off to the
full scan regardless of the Bloom-filter toggle. -/
theorem enhancedRegexMatch_fullscan_of_no_useful (env : JsEnv) (t : Timing)
    (collection : List Value) (field pattern options : String)
    (config : PartialRegexSearchConfig) (st : GlobalState)
    (hne : pattern ≠ "")
    (hfalse : (extractLiteralsFromRegex pattern).any
      (fun lit => decide
        ((mergeConfig st.defaultConfig config).minLiteralLength ≤ lit.length)) = false) :
    (enhancedRegexMatch env t collection field pattern options config st).1 =
      performFullRegexSearch env collection field pattern options := by
  simp only [enhancedRegexMatch]
  rw [if_neg hne, hfalse]
  simp only [Bool.not_false, Bool.true_or, Bool.or_true, if_true]

/-- **C2** counterexample: the empty pattern yields no extracted literal of
the minimum length and both Bloom-filter settings return the same (empty)
result, yet that result differs from the full-scan result, which matches
every string-valued document under the match-everything empty regex. -/
theorem c2_counterexample :
    extractLiteralsFromRegex "" = [] ∧
    (enhancedRegexMatch wEnv wTiming [wDoc] "text" "" ""
        { enableBloomFilter := some true } initialGlobalState).1 =
      (enhancedRegexMatch wEnv wTiming [wDoc] "text" "" ""
        { enableBloomFilter := some false } initialGlobalState).1 ∧
    (enhancedRegexMatch wEnv wTiming [wDoc] "text" "" ""
        { enableBloomFilter := some true } initialGlobalState).1 ≠
      performFullRegexSearch wEnv [wDoc] "text" "" "" := by
  refine ⟨rfl, rfl, ?_⟩
  rw [show (enhancedRegexMatch wEnv wTiming [wDoc] "text" "" ""
      { enableBloomFilter := some true } initialGlobalState).1 = [] from rfl,
    show performFullRegexSearch wEnv [wDoc] "text" "" "" = [wDoc] from rfl]
  exact (List.cons_ne_nil wDoc []).symm

/-- **C2** (amended): if the pattern yields no extracted literal of length
at least `minLiteralLength`, `enhancedRegexMatch` returns exactly the same
result with `enableBloomFilter` true as with `enableBloomFilter` false —
and, provided the pattern is non-empty, both equal the full-scan result
(the empty pattern is instead short-circuited to the empty result before
the literal analysis runs). -/
theorem c2_fallback_equivalence (env : JsEnv) (t1 t2 : Timing)
    (collection : List Value) (field pattern options : String)
    (config : PartialRegexSearchConfig) (st : GlobalState)
    (hshort : ∀ lit ∈ extractLiteralsFromRegex pattern,
      lit.length < (mergeConfig st.defaultConfig config).minLiteralLength) :
    ((enhancedRegexMatch env t1 collection field pattern options
        { config with enableBloomFilter := some true } st).1 =
      (enhancedRegexMatch env t2 collection field pattern options
        { config with enableBloomFilter := some false } st).1) ∧
    (pattern ≠ "" →
      (enhancedRegexMatch env t1 collection field pattern options
          { config with enableBloomFilter := some true } st).1 =
        performFullRegexSearch env collection field pattern options) := by
  have hmin : ∀ b : Option Bool,
      (mergeConfig st.defaultConfig
        { config with enableBloomFilter := b }).minLiteralLength =
      (mergeConfig st.defaultConfig config).minLiteralLength := fun b => rfl
  have hfalse : ∀ b : Option Bool, (extractLiteralsFromRegex pattern).any
      (fun lit => decide ((mergeConfig st.defaultConfig
        { config with enableBloomFilter := b }).minLiteralLength ≤ lit.length)) = false := by
    intro b
    rw [List.any_eq_false]
    intro lit hl
    rw [hmin b]
    simp only [decide_eq_true_eq]
    exact Nat.not_le.mpr (hshort lit hl)
  by_cases hne : pattern = ""
  · subst hne
    rw [enhancedRegexMatch_empty env t1 collection field options _ st,
      enhancedRegexMatch_empty env t2 collection field options _ st]
    exact ⟨rfl, fun h => absurd rfl h⟩
  · constructor
    · rw [enhancedRegexMatch_fullscan_of_no_useful env t1 collection field pattern options
          _ st hne (hfalse (some true)),
        enhancedRegexMatch_fullscan_of_no_useful env t2 collection field pattern options
          _ st hne (hfalse (some false))]
    · intro _
      exact enhancedRegexMatch_fullscan_of_no_useful env t1 collection field pattern options
        _ st hne (hfalse (some true))

/-- Witness for the amended C2 at the pattern `.*`. -/
theorem c2_fallback_equivalence_witness :
    ((enhancedRegexMatch wEnv wTiming [wDoc] "text" ".*" ""
        { enableBloomFilter := some true } initialGlobalState).1 =
      (enhancedRegexMatch wEnv wTiming [wDoc] "text" ".*" ""
        { enableBloomFilter := some false } initialGlobalState).1) ∧
    (".*" ≠ "" →
      (enhancedRegexMatch wEnv wTiming [wDoc] "text" ".*" ""
          { enableBloomFilter := some true } initialGlobalState).1 =
        performFullRegexSearch wEnv [wDoc] "text" ".*" "") :=
  c2_fallback_equivalence wEnv wTiming wTiming [wDoc] "text" ".*" "" {}
    initialGlobalState
    (by
      intro lit hl
      rw [show extractLiteralsFromRegex ".*" = [] from rfl] at hl
      cases hl)

/-- **C6** counterexample: with `maxPatternComplexity := 3`, the pattern
`"ab."` has complexity score `4` (length `3` plus one metacharacter),
exceeding the ceiling — yet `enhancedRegexMatch` does not increment
`unsupportedPatterns`, because the code compares the ceiling against the
pattern length alone (`3 > 3` fails). -/
theorem c6_counterexample :
    (mergeConfig initialGlobalState.defaultConfig
        { maxPatternComplexity := some 3 }).maxPatternComplexity <
      (analyzeRegexPattern "ab.").complexity ∧
    (enhancedRegexMatch wEnv wTiming [wDoc] "text" "ab." ""
        { maxPatternComplexity := some 3 }
        initialGlobalState).2.stats.unsupportedPatterns = 0 :=
  ⟨by decide, rfl⟩

/-- **C6** (amended): when the pattern's *length* exceeds the configured
`maxPatternComplexity` ceiling, `enhancedRegexMatch` marks the query
ineligible, increments `unsupportedPatterns`, and returns the full-scan
result over the whole collection. (`analyzeRegexPattern` does score
complexity as length plus metacharacter count, but the ceiling check in
`enhancedRegexMatch` uses the pattern length alone.) -/
theorem c6_complexity_ceiling (env : JsEnv) (t : Timing) (collection : List Value)
    (field pattern options : String) (config : PartialRegexSearchConfig)
    (st : GlobalState)
    (h : (mergeConfig st.defaultConfig config).maxPatternComplexity < pattern.length) :
    (enhancedRegexMatch env t collection field pattern options config st).1 =
      performFullRegexSearch env collection field pattern options ∧
    (enhancedRegexMatch env t collection field pattern options
        config st).2.stats.unsupportedPatterns =
      st.stats.unsupportedPatterns + 1 := by
  have hne : pattern ≠ "" := by
    intro h0
    rw [h0] at h
    rw [show ("" : String).length = 0 from rfl] at h
    omega
  simp only [enhancedRegexMatch]
  rw [if_neg hne, decide_eq_true h]
  simp only [Bool.or_true, if_true]
  constructor
  · exact trivial
  · split <;> rfl

/-- Witness for the amended C6: pattern of length 4 against ceiling 3. -/
theorem c6_complexity_ceiling_witness :
    ((enhancedRegexMatch wEnv wTiming [wDoc] "text" "abcd" ""
        { maxPatternComplexity := some 3 } initialGlobalState).1 =
      performFullRegexSearch wEnv [wDoc] "text" "abcd" "") ∧
    (enhancedRegexMatch wEnv wTiming [wDoc] "text" "abcd" ""
        { maxPatternComplexity := some 3 }
        initialGlobalState).2.stats.unsupportedPatterns =
      initialGlobalState.stats.unsupportedPatterns + 1 :=
  c6_complexity_ceiling wEnv wTiming [wDoc] "text" "abcd" ""
    { maxPatternComplexity := some 3 } initialGlobalState (by decide)

/-- **C7**: for every eligible query (non-empty pattern, Bloom filtering
enabled, a usefully long literal, length under the ceiling), if the
candidate set produced by the Bloom probe exceeds 70% of the collection
size, `enhancedRegexMatch` abandons the candidate set and returns the
full-scan result over the entire collection (a policy fallback of the
total function, not an error). -/
theorem c7_ineffective_prefilter (env : JsEnv) (t : Timing) (collection : List Value)
    (field pattern options : String) (config : PartialRegexSearchConfig)
    (st : GlobalState)
    (hne : pattern ≠ "")
    (henable : (mergeConfig st.defaultConfig config).enableBloomFilter = true)
    (huseful : (extractLiteralsFromRegex pattern).any
      (fun lit => decide
        ((mergeConfig st.defaultConfig config).minLiteralLength ≤ lit.length)) = true)
    (hlen : ¬ (mergeConfig st.defaultConfig config).maxPatternComplexity < pattern.length)
    (hbig : 7 * collection.length <
      10 * (testRegexPattern env
          (buildRegexDocumentIndex env collection field (getGlobalRegexFilter st))
          pattern).candidates.length) :
    (enhancedRegexMatch env t collection field pattern options config st).1 =
      performFullRegexSearch env collection field pattern options := by
  simp only [enhancedRegexMatch]
  rw [if_neg hne, henable, huseful, decide_eq_false hlen]
  simp only [Bool.not_true, Bool.false_or, Bool.or_false]
  rw [if_neg Bool.false_ne_true, decide_eq_true hbig]
  simp only [Bool.or_true, if_true]

/-- Witness for C7: a one-document collection whose constant-hash probe
keeps the single document as a candidate (100% of the collection). -/
theorem c7_ineffective_prefilter_witness :
    (enhancedRegexMatch wEnv wTiming [wDoc] "text" "hello" "" {} initialGlobalState).1 =
      performFullRegexSearch wEnv [wDoc] "text" "hello" "" :=
  c7_ineffective_prefilter wEnv wTiming [wDoc] "text" "hello" "" {} initialGlobalState
    (by decide) rfl (by decide) (by decide) (by decide)

/-- **C9** counterexample: after Bloom filtering is switched off and a
query's per-call override builds the global index anyway, a
`configureRegexSearch` call that changes the enablement flag from `false`
back to `true` leaves the already-built index in place (the code only
invalidates when a size is supplied or the flag is set to `false`). -/
theorem c9_counterexample :
    wStateBuilt.filter.isSome = true ∧
    wStateBuilt.defaultConfig.enableBloomFilter = false ∧
    (configureRegexSearch { enableBloomFilter := some true }
      wStateBuilt).defaultConfig.enableBloomFilter = true ∧
    (configureRegexSearch { enableBloomFilter := some true }
      wStateBuilt).filter.isSome = true :=
  ⟨rfl, rfl, rfl, rfl⟩

/-- **C9** (amended): `configureRegexSearch` invalidates any built global
index whenever the override supplies a `bloomFilterSizeBytes` value or
sets `enableBloomFilter` to `false`; afterwards no index is present, so
the next query forces a rebuild under the new parameters. (Re-enabling
the filter — changing the flag from `false` to `true` — does not
invalidate.) -/
theorem c9_configure_invalidation (config : PartialRegexSearchConfig)
    (st : GlobalState)
    (h : config.bloomFilterSizeBytes.isSome = true ∨
      config.enableBloomFilter = some false) :
    (configureRegexSearch config st).filter = none := by
  unfold configureRegexSearch
  split
  · rfl
  · next hcond =>
    rcases hf : st.filter with _ | f
    · rfl
    · exfalso
      apply hcond
      rw [hf]
      simp only [Option.isSome_some, Bool.true_and, Bool.or_eq_true]
      rcases h with h | h
      · exact Or.inl h
      · right
        rw [h]
        rfl

/-- Witness for the amended C9: a size override clears the built index. -/
theorem c9_configure_invalidation_witness :
    (configureRegexSearch { bloomFilterSizeBytes := some 512 } wStateBuilt).filter
      = none :=
  c9_configure_invalidation { bloomFilterSizeBytes := some 512 } wStateBuilt
    (Or.inl rfl)

/-- **C1**: soundness of acceleration. Under the LiteralExtractor
contract — every extracted literal occurs verbatim in any text the
compiled matcher accepts (§3/§4.1) — every document that the full
non-accelerated scan includes is also included by `enhancedRegexMatch`,
for every collection, field path, options string, valid non-empty
pattern, configuration override and module state: the Bloom prefilter
path never discards a true match. -/
theorem c1_soundness (env : JsEnv) (t : Timing) (collection : List Value)
    (field pattern options : String) (config : PartialRegexSearchConfig)
    (st : GlobalState) (m : String → Bool)
    (hm : env.compile pattern options = some m)
    (hne : pattern ≠ "")
    (hLit : ∀ s : String, m s = true →
      ∀ lit ∈ extractLiteralsFromRegex pattern, SubstrIn lit s)
    (doc : Value)
    (hdoc : doc ∈ performFullRegexSearch env collection field pattern options) :
    doc ∈ (enhancedRegexMatch env t collection field pattern options config st).1 := by
  rcases mem_performFullRegexSearch_iff.mp hdoc with ⟨m2, hm2, hmem, s, hval, hs⟩
  obtain rfl : m = m2 := Option.some.inj (hm.symm.trans hm2)
  simp only [enhancedRegexMatch]
  rw [if_neg hne]
  split
  · exact hdoc
  · split
    · exact hdoc
    · apply mem_performFullRegexSearch_iff.mpr
      refine ⟨m, hm, ?_, s, hval, hs⟩
      obtain ⟨⟨i, hilt⟩, hgeteq⟩ := List.mem_iff_get.mp hmem
      have hget : collection.get? i = some doc := by
        rw [List.get?_eq_get hilt, hgeteq]
      apply mem_filterIdxFrom (candidateDocPred _) collection i 0 doc hget
      apply candidateDocPred_of_docId
      rw [Nat.zero_add]
      have hcomp := buildIndexFrom_complete env field collection i 0
        (getGlobalRegexFilter st) doc s hget hval
      rw [Nat.zero_add] at hcomp
      show docIdOf doc i ∈
        (testRegexPattern env
          (buildRegexDocumentIndex env collection field (getGlobalRegexFilter st))
          pattern).candidates
      unfold testRegexPattern
      apply mem_candidates_of_bits hcomp.1
      intro p hp
      unfold buildRegexDocumentIndex at hp
      rcases List.mem_flatMap.mp hp with ⟨tri, htri, hppos⟩
      have htri2 := List.mem_dedup.mp htri
      rcases List.mem_flatMap.mp htri2 with ⟨lit, hlit, htriglit⟩
      have hsub : SubstrIn tri s :=
        (substrIn_of_mem_extractTrigrams htriglit).trans (hLit s hs lit hlit)
      have htrimem : tri ∈ extractTrigrams s :=
        mem_extractTrigrams_of_substrIn (length_of_mem_extractTrigrams htriglit) hsub
      apply hcomp.2
      unfold textPositions
      apply List.mem_flatMap.mpr
      refine ⟨tri, htrimem, ?_⟩
      rw [buildIndexFrom_numHashes env field collection 0 (getGlobalRegexFilter st),
        buildIndexFrom_sizeBytes env field collection 0 (getGlobalRegexFilter st)] at hppos
      exact hppos

/-- Witness for C1: the substring matcher for `"hello"` against a
single-document collection; the full scan keeps the document, and so does
the accelerated search. -/
theorem c1_soundness_witness :
    wDoc ∈ (enhancedRegexMatch wEnv wTiming [wDoc] "text" "hello" "" {}
      initialGlobalState).1 := by
  apply c1_soundness wEnv wTiming [wDoc] "text" "hello" "" {} initialGlobalState
    (fun s => containsSub "hello".data s.data) rfl (by decide) ?_ wDoc ?_
  · intro s hs lit hl
    rw [show extractLiteralsFromRegex "hello" = ["hello"] from rfl] at hl
    obtain rfl := List.mem_singleton.mp hl
    exact SubstrIn_iff_containsSub.mpr hs
  · rw [show performFullRegexSearch wEnv [wDoc] "text" "hello" "" = [wDoc] from rfl]
    exact List.mem_singleton_self wDoc

end Aggo
